import Mathlib

/-!
Verification of `src/gmap_scrap.py` (google-maps-scraping).

The Python source is shallowly embedded below. Pure helpers
(`extract_kelurahan_kecamatan`, `extract_coordinates_from_url`,
`parse_business_input`) become Lean functions; the mutable
`BusinessList` object becomes explicit state passing; the per-city
scraping `while` loop in `main` becomes a fuel-indexed step function over
an environment describing what the page shows on each iteration.  Python
floats are modelled as rationals, Python exceptions as `Except`/`Option`
results, and the `seen_businesses` Python set as a list of keys used
only through membership tests and insertion.
-/

/-- Composite dedup key type: `(business.name, business.address, business.phone_number)`.
`name` is `Option String` because the `Business` dataclass defaults it to `None`. -/
abbrev BKey := Option String × String × String

/-- Embedding of the `Business` dataclass (gmap_scrap.py lines 31-46).
String fields keep their sentinel defaults at construction sites; numeric
fields (`rating`, `latitude`, `longitude`) are Python floats or `None`,
modelled as `Option ℚ`. -/
structure Business where
  name : Option String := none
  address : String := "No Address"
  kelurahan : Option String := none
  kecamatan : Option String := none
  website : String := "No Website"
  phone_number : String := "No Phone"
  rating : Option ℚ := none
  latitude : Option ℚ := none
  longitude : Option ℚ := none
deriving DecidableEq

/-- Composite key computed in `add_business` (line 97):
`unique_key = (business.name, business.address, business.phone_number)`. -/
def Business.key (b : Business) : BKey := (b.name, b.address, b.phone_number)

/-- Embedding of the `BusinessList` object state (lines 48-109): the ordered
`business_list` and the `seen_businesses` set.  The Python `set` is modelled
as a list of keys; the code uses it only via membership test and insertion,
which the list models extensionally. -/
structure BusinessList where
  business_list : List Business
  seen_businesses : List BKey
deriving DecidableEq

/-- Fresh store as built by `BusinessList.__init__` (lines 105-108). -/
def BusinessList.empty : BusinessList := ⟨[], []⟩

/-- Embedding of `BusinessList.add_business` (lines 95-103): compute the
composite key; if unseen, record the key, append the business and return
`True`; otherwise return `False` and leave the state unchanged. -/
def add_business (s : BusinessList) (b : Business) : Bool × BusinessList :=
  if b.key ∈ s.seen_businesses then (false, s)
  else (true, ⟨s.business_list ++ [b], b.key :: s.seen_businesses⟩)

/-- Embedding of the per-category clear `business_list.business_list.clear()`
(line 361): it empties only the ordered sequence; `seen_businesses` is kept. -/
def clearBusinesses (s : BusinessList) : BusinessList :=
  ⟨[], s.seen_businesses⟩

/-- Operations that mutate a `BusinessList` during a run: `add_business`
calls and the per-category clear. -/
inductive StoreOp
  | add (b : Business)
  | clear
deriving DecidableEq

/-- Replay of a sequence of store operations from a given state; states of
the form `runOps BusinessList.empty ops` are exactly the reachable states. -/
def runOps (s : BusinessList) : List StoreOp → BusinessList
  | [] => s
  | StoreOp.add b :: ops => runOps (add_business s b).2 ops
  | StoreOp.clear :: ops => runOps (clearBusinesses s) ops

/-- Sample business record used in concrete counterexamples and witnesses. -/
def b0 : Business :=
  { name := some "Sekolah A", address := "Jl. X", phone_number := "0765" }

/-! Embedding of `extract_kelurahan_kecamatan` (lines 17-29), which applies
`re.search` with the pattern `([A-Za-z\s]+),\s*(Kec\.\s*[A-Za-z\s]+)` and, on
a match, returns `(group(1), group(2).replace("Kec.", "").strip())`.

For this particular pattern the backtracking regex engine is equivalent to
a deterministic leftmost scan with maximal character-class runs: after the
greedy run `[A-Za-z\s]+` the pattern requires `,`, and `,` is not in the
class, so no shorter run can help; after the greedy `\s*` it requires the
literal `K`, which is not whitespace; and the trailing `\s*[A-Za-z\s]+`
jointly consume exactly the maximal `[A-Za-z\s]` run after `Kec.` (the
whitespace class is contained in the bracket class), succeeding iff that
run is nonempty.  The scan below implements exactly that. -/

/-- Python `\s` on the ASCII range (the inputs in question are ASCII). -/
def isPyWS (c : Char) : Bool :=
  c = ' ' || c = '\t' || c = '\n' || c = '\r' || c = '\x0b' || c = '\x0c'

/-- Membership in the bracket class `[A-Za-z\s]` of the pattern. -/
def isClassChar (c : Char) : Bool :=
  (decide ('A' ≤ c ∧ c ≤ 'Z') || decide ('a' ≤ c ∧ c ≤ 'z')) || isPyWS c

/-- Literal `Kec.` appearing in the pattern. -/
def kecLit : List Char := ['K', 'e', 'c', '.']

/-- Attempt of the pattern at one fixed start position: maximal
`[A-Za-z\s]+` run (nonempty), a comma, maximal `\s*` run, the literal
`Kec.`, then a nonempty maximal `[A-Za-z\s]` run.  Returns the two
captured groups on success. -/
def matchAt (cs : List Char) : Option (List Char × List Char) :=
  if cs.takeWhile isClassChar = [] then none
  else
    if (cs.dropWhile isClassChar).take 1 = [','] then
      if (((cs.dropWhile isClassChar).drop 1).dropWhile isPyWS).take 4 = kecLit then
        if ((((cs.dropWhile isClassChar).drop 1).dropWhile isPyWS).drop 4).takeWhile isClassChar = []
        then none
        else some (cs.takeWhile isClassChar,
          kecLit ++ ((((cs.dropWhile isClassChar).drop 1).dropWhile isPyWS).drop 4).takeWhile isClassChar)
      else none
    else none

/-- Leftmost search of the pattern, as `re.search` does: try every start
position from the left and return the first match. -/
def searchKec : List Char → Option (List Char × List Char)
  | [] => none
  | c :: cs =>
    match matchAt (c :: cs) with
    | some g => some g
    | none => searchKec cs

/-- Python `str.replace("Kec.", "")`: remove every (non-overlapping,
leftmost-first) occurrence of `Kec.`. -/
def replaceKec : List Char → List Char
  | 'K' :: 'e' :: 'c' :: '.' :: cs => replaceKec cs
  | c :: cs => c :: replaceKec cs
  | [] => []

/-- Python `str.strip()` on the ASCII range: drop whitespace at both ends. -/
def pyStrip (cs : List Char) : List Char :=
  ((cs.dropWhile isPyWS).reverse.dropWhile isPyWS).reverse

/-- Embedding of `extract_kelurahan_kecamatan` (lines 17-29): leftmost
search of the pattern; on a match, kelurahan is the raw first group and
kecamatan the second group with `Kec.` removed and whitespace stripped;
on no match, `(None, None)`. -/
def extract_kelurahan_kecamatan (address : String) : Option String × Option String :=
  match searchKec address.toList with
  | some (g1, g2) => (some (String.mk g1), some (String.mk (pyStrip (replaceKec g2))))
  | none => (none, none)

/-- Decidable test for the substring `Kec.`, used to state the no-match
half of claim C6. -/
def containsKec : List Char → Bool
  | [] => false
  | c :: cs =>
    if c = 'K' ∧ cs.take 3 = ['e', 'c', '.'] then true else containsKec cs

/-! Embedding of `extract_coordinates_from_url` (lines 129-136).  The code
computes `url.split('/@')[-1].split('/')[0].split(',')`, applies `float`
to the first two tokens, and catches `IndexError`/`ValueError` to return
`(None, None)`.  Python floats are modelled as rationals. -/

/-- ASCII decimal digit test. -/
def isDigitCh (c : Char) : Bool := decide ('0' ≤ c ∧ c ≤ '9')

/-- Numeric value of a digit string. -/
def digitsVal (ds : List Char) : ℕ :=
  ds.foldl (fun n c => n * 10 + (c.toNat - 48)) 0

/-- Mantissa of a Python float literal: `digits [. digits]` or `. digits`,
at least one digit overall; returns the integer part value, the fraction
digits value, the fraction length, and the unconsumed rest. -/
def parseMantissa (cs : List Char) : Option ((ℕ × ℕ × ℕ) × List Char) :=
  match cs.dropWhile isDigitCh with
  | '.' :: rest2 =>
    if cs.takeWhile isDigitCh = [] ∧ rest2.takeWhile isDigitCh = [] then none
    else some ((digitsVal (cs.takeWhile isDigitCh),
        digitsVal (rest2.takeWhile isDigitCh), (rest2.takeWhile isDigitCh).length),
      rest2.dropWhile isDigitCh)
  | rest =>
    if cs.takeWhile isDigitCh = [] then none
    else some ((digitsVal (cs.takeWhile isDigitCh), 0, 0), rest)

/-- Value of a parsed decimal literal `sgn * (i.f) * 10^e` as a rational:
numerator and denominator are assembled with integer arithmetic and
normalized by a single `mkRat`. -/
def decValue (sgn : ℤ) (i f k : ℕ) (e : ℤ) : ℚ :=
  mkRat (sgn * ((i * 10 ^ k + f : ℕ) : ℤ) * (10 : ℤ) ^ e.toNat)
    (10 ^ k * 10 ^ (-e).toNat)

/-- Modelled after Python's `float(str)` builtin on finite decimal
literals: optional surrounding whitespace, optional sign, mantissa,
optional exponent.  (Python additionally accepts `inf`/`nan` literals and
underscore digit separators; those never arise from the URLs in question
and are not modelled.) -/
def pyFloat (s : String) : Option ℚ :=
  let cs0 := pyStrip s.toList
  let sgn : ℤ := match cs0 with
    | '-' :: _ => -1
    | _ => 1
  let cs1 : List Char := match cs0 with
    | '-' :: t => t
    | '+' :: t => t
    | t => t
  match parseMantissa cs1 with
  | none => none
  | some ((i, f, k), rest) =>
    match rest with
    | [] => some (decValue sgn i f k 0)
    | e :: rest2 =>
      if e = 'e' ∨ e = 'E' then
        let esgn : ℤ := match rest2 with
          | '-' :: _ => -1
          | _ => 1
        let rest3 : List Char := match rest2 with
          | '-' :: t => t
          | '+' :: t => t
          | t => t
        if rest3.takeWhile isDigitCh = [] ∨ rest3.dropWhile isDigitCh ≠ [] then none
        else some (decValue sgn i f k (esgn * (digitsVal (rest3.takeWhile isDigitCh) : ℤ)))
      else none

/-- Python `url.split('/@')`: split on the two-character separator,
scanning left to right, separators non-overlapping. -/
def splitAtMark : List Char → List (List Char)
  | [] => [[]]
  | [c] => [[c]]
  | c :: d :: cs =>
    if c = '/' ∧ d = '@' then [] :: splitAtMark cs
    else
      match splitAtMark (d :: cs) with
      | [] => [[c]]
      | p :: ps => (c :: p) :: ps

/-- Decidable test for an occurrence of the `/@` marker, used to state the
missing-marker half of claim C7. -/
def hasAtMark : List Char → Bool
  | [] => false
  | [_] => false
  | c :: d :: cs => if c = '/' ∧ d = '@' then true else hasAtMark (d :: cs)

/-- Tokenization the code applies to the part selected by the `/@` split:
`.split('/')[0].split(',')`, then `float` of tokens 0 and 1; a missing
token 1 (IndexError) or a failed parse (ValueError) is caught by the
`except` clause, giving `(None, None)`. -/
def coordsOfPart (cs : List Char) : Option ℚ × Option ℚ :=
  match (cs.takeWhile (fun c => c != '/')).splitOn ',' with
  | t0 :: t1 :: _ =>
    match pyFloat (String.mk t0), pyFloat (String.mk t1) with
    | some a, some b => (some a, some b)
    | _, _ => (none, none)
  | _ => (none, none)

/-- Embedding of `extract_coordinates_from_url` (lines 129-136): take the
last piece of the `/@` split (`[-1]`; the whole string when the marker is
absent) and tokenize it. -/
def extract_coordinates_from_url (url : String) : Option ℚ × Option ℚ :=
  coordsOfPart ((splitAtMark url.toList).getLastD [])

/-! Embedding of the CLI category selection (lines 147-177):
`parse_business_input`, the bounds filter, and the empty-selection abort. -/

/-- Modelled after Python's `int(str)` builtin: optional surrounding
whitespace, optional sign, then a nonempty digit string (underscore
separators are accepted by Python but not modelled; they never arise
here). -/
def pyInt (cs : List Char) : Option ℤ :=
  match pyStrip cs with
  | '-' :: ds => if ds ≠ [] ∧ ds.all isDigitCh then some (-(digitsVal ds : ℤ)) else none
  | '+' :: ds => if ds ≠ [] ∧ ds.all isDigitCh then some ((digitsVal ds : ℤ)) else none
  | ds => if ds ≠ [] ∧ ds.all isDigitCh then some ((digitsVal ds : ℤ)) else none

/-- Python `range(start, end + 1)` over integers: the list
`start, start+1, ..., end`, empty when `start > end`. -/
def rangeList (a b : ℤ) : List ℤ :=
  (List.range (b + 1 - a).toNat).map (fun j => a + j)

/-- One comma-separated part of the selection input (lines 159-168):
strip it; if it contains a hyphen, `part.split('-')` must unpack into
exactly two pieces (otherwise ValueError), both parsed by `int`
(ValueError on failure), giving the 0-based index range
`start-1 .. end-1`; otherwise the part itself is parsed by `int`, giving
one 0-based index.  The uncaught ValueError is the `.error` case. -/
def parsePart (part : List Char) : Except Unit (List ℤ) :=
  if (pyStrip part).contains '-' then
    match (pyStrip part).splitOn '-' with
    | [a, b] =>
      match pyInt a, pyInt b with
      | some x, some y => Except.ok (rangeList (x - 1) (y - 1))
      | _, _ => Except.error ()
    | _ => Except.error ()
  else
    match pyInt (pyStrip part) with
    | some n => Except.ok [n - 1]
    | none => Except.error ()

/-- Embedding of `parse_business_input` (lines 157-169): split the input
on commas, parse every part (the first uncaught ValueError aborts the
whole parse), collect the indices into a set and return them sorted; the
Python set-then-`sorted` is modelled by dedup-then-sort. -/
def parse_business_input (s : String) : Except Unit (List ℤ) :=
  match (s.toList.splitOn ',').mapM parsePart with
  | Except.ok sets => Except.ok ((sets.flatten.dedup).insertionSort (· ≤ ·))
  | Except.error e => Except.error e

/-- The menu of categories (lines 12-15). -/
def business_category : List String :=
  ["School", "Masjid", "Gereja", "Hotel", "Kafe", "Restoran", "Bengkel"]

/-- The bounds guard `0 <= i < len(business_category)` of line 173. -/
def inRangeIdx (i : ℤ) : Bool :=
  decide (0 ≤ i ∧ i < (business_category.length : ℤ))

/-- Line 173: `[business_category[i] for i in selected if 0 <= i < len(business_category)]`. -/
def selectCategories (idxs : List ℤ) : List String :=
  (idxs.filter inRangeIdx).map (fun i => business_category.getD i.toNat "")

/-- Boolean success test for the exception monad. -/
def isOkE {α : Type} : Except Unit α → Bool
  | Except.ok _ => true
  | Except.error _ => false

/-- Prefix of `main` that decides whether the run proceeds (lines
171-177): parse the selection (an uncaught ValueError is `.error`),
filter to in-range indices; an empty selection prints
"No valid business types selected." and returns before the store, the
auto-save timer, the browser or any file output is created (`.ok none`);
otherwise the run proceeds with the selected categories. -/
def mainStart (input : String) : Except Unit (Option (List String)) :=
  match parse_business_input input with
  | Except.error e => Except.error e
  | Except.ok idxs =>
    if selectCategories idxs = [] then Except.ok none
    else Except.ok (some (selectCategories idxs))

/-- Well-formedness of one selection part: exactly the inputs on which
the per-part parsing of the source raises no ValueError. -/
def wellFormedPart (part : List Char) : Bool :=
  if (pyStrip part).contains '-' then
    match (pyStrip part).splitOn '-' with
    | [a, b] => (pyInt a).isSome && (pyInt b).isSome
    | _ => false
  else (pyInt (pyStrip part)).isSome

/-! Embedding of `BusinessList.auto_save` (lines 111-121) and claim C8. -/

/-- Outcome of one call into the persistence collaborator
(`save_to_excel` followed by `save_to_csv`); `failure` stands for a
raised write error. -/
inductive SaveOutcome
  | ok
  | failure
deriving DecidableEq

/-- Embedding of one `auto_save` timer callback (lines 111-121): if
`business_list` is nonempty, run the two saves — a raised write error
propagates out of the callback (there is no try/except around the saves),
so the `threading.Timer` re-arm on line 119 is never reached and the
result is `.error`; otherwise, and after a successful save, line 119 is
reached and a new 60-second timer is armed (`.ok true`, the `true`
recording that re-arming happened). -/
def auto_save (store : BusinessList) (save : SaveOutcome) : Except Unit Bool :=
  if store.business_list.isEmpty then Except.ok true
  else
    match save with
    | SaveOutcome.ok => Except.ok true
    | SaveOutcome.failure => Except.error ()

/-! Embedding of the per-city scraping while-loop of `main`
(lines 246-352).  The loop's interaction with the page is abstracted into
an environment giving, for the i-th iteration, the batch of listings the
page yields (each already extracted to the `Business` its detail panel
produces), the anchor count observed after the post-batch scroll, and
the visibility of the end-of-list marker. -/

/-- Environment of one (category, city) search session. -/
structure SessionEnv where
  batch : Nat → List Business
  newCount : Nat → Nat
  endMarker : Nat → Bool

/-- Policy constant of line 246. -/
def MAX_SCROLL_ATTEMPTS : Nat := 10

/-- Mutable state of the while loop: the shared store, `listings_scraped`,
`scroll_attempts` and `previously_counted`. -/
structure SessionState where
  store : BusinessList
  scraped : Nat
  attempts : Nat
  prev : Nat
deriving DecidableEq

/-- Body of the inner `for listing in listings` loop for one listing
(lines 263-334): once the target is reached the remaining listings are
skipped (the two `break` guards); otherwise the extracted business is
passed to `add_business` and `listings_scraped` is incremented only when
the add reports a new insertion (lines 325-327). -/
def processListing (target : Nat) (p : BusinessList × Nat) (b : Business) :
    BusinessList × Nat :=
  if target ≤ p.2 then p
  else ((add_business p.1 b).2, if (add_business p.1 b).1 then p.2 + 1 else p.2)

/-- The inner for-loop over one whole batch of listings. -/
def processBatch (target : Nat) (p : BusinessList × Nat) (bs : List Business) :
    BusinessList × Nat :=
  bs.foldl (processListing target) p

/-- Reasons the while loop stops: the `while` condition failing
(`target`), an empty listing fetch (line 258), ten stagnant scrolls
(line 342), the end-of-list marker (line 350), or fuel exhaustion — an
artifact of the fuel-indexed embedding, shown unreachable in the claims. -/
inductive ExitReason
  | target
  | noListings
  | stagnation
  | endOfList
  | fuelOut
deriving DecidableEq

/-- Result of one loop iteration: stop with a reason, or continue. -/
inductive StepResult
  | exit (r : ExitReason) (st : SessionState)
  | next (st : SessionState)
deriving DecidableEq

/-- Post-batch scroll bookkeeping (lines 336-352): observe the new anchor
count; if unchanged, bump `scroll_attempts` and stop after the tenth
consecutive stagnant scroll (skipping the end-marker check, as the
`break` does); on a change reset `scroll_attempts` to 0; update
`previously_counted`; then stop if the end-of-list marker is visible. -/
def scrollUpdate (env : SessionEnv) (i : Nat) (store : BusinessList)
    (scraped : Nat) (st : SessionState) : StepResult :=
  if env.newCount i = st.prev then
    if MAX_SCROLL_ATTEMPTS ≤ st.attempts + 1 then
      StepResult.exit ExitReason.stagnation ⟨store, scraped, st.attempts + 1, st.prev⟩
    else if env.endMarker i then
      StepResult.exit ExitReason.endOfList ⟨store, scraped, st.attempts + 1, env.newCount i⟩
    else StepResult.next ⟨store, scraped, st.attempts + 1, env.newCount i⟩
  else if env.endMarker i then
    StepResult.exit ExitReason.endOfList ⟨store, scraped, 0, env.newCount i⟩
  else StepResult.next ⟨store, scraped, 0, env.newCount i⟩

/-- One iteration of the while loop (lines 251-352): check the `while`
condition, fetch the batch (empty means stop), process it, then do the
scroll bookkeeping. -/
def sessionStep (env : SessionEnv) (target i : Nat) (st : SessionState) : StepResult :=
  if st.scraped < target then
    if env.batch i = [] then StepResult.exit ExitReason.noListings st
    else scrollUpdate env i
      (processBatch target (st.store, st.scraped) (env.batch i)).1
      (processBatch target (st.store, st.scraped) (env.batch i)).2 st
  else StepResult.exit ExitReason.target st

/-- Fuel-indexed run of the while loop from iteration `i`; the returned
number is the iteration index at which the loop stopped, i.e. how many
batches were fetched when the exit is via the `while` condition. -/
def sessionLoop (env : SessionEnv) (target : Nat) :
    Nat → Nat → SessionState → SessionState × ExitReason × Nat
  | 0, i, st => (st, ExitReason.fuelOut, i)
  | fuel + 1, i, st =>
    match sessionStep env target i st with
    | StepResult.exit r st2 => (st2, r, i)
    | StepResult.next st2 => sessionLoop env target fuel (i + 1) st2

/-- Exit reason of a step, if it stops the loop. -/
def stepExit : StepResult → Option ExitReason
  | StepResult.exit r _ => some r
  | StepResult.next _ => none

/-- Loop-entry state (lines 209 and 247-248): store empty at the start of
the run, `listings_scraped = 0`, `scroll_attempts = 0`, and the pre-loop
anchor count as `previously_counted`. -/
def initSession (c0 : Nat) : SessionState := ⟨BusinessList.empty, 0, 0, c0⟩

/-- The value `previously_counted` holds entering iteration `k`: the
pre-loop count for `k = 0`, else the count observed at iteration `k-1`. -/
def prevCount (env : SessionEnv) (c0 : Nat) : Nat → Nat
  | 0 => c0
  | k + 1 => env.newCount k

/-- An inexhaustible simulated source in the sense of the spec's
target-count property: distinct iterations never offer records with the
same composite key. -/
def FreshBatches (env : SessionEnv) : Prop :=
  ∀ i j : Nat, i < j → ∀ a ∈ env.batch i, ∀ b ∈ env.batch j, a.key ≠ b.key

/-- Every key the store has seen comes from one of the first `k` batches. -/
def SeenFromBatches (env : SessionEnv) (k : Nat) (s : BusinessList) : Prop :=
  ∀ x ∈ s.seen_businesses, ∃ j, j < k ∧ ∃ b ∈ env.batch j, b.key = x

/-- Stagnant simulated source for the C5 witness: constant count, the
same listing every time, no end marker. -/
def env1 : SessionEnv := ⟨fun _ => [b0], fun _ => 0, fun _ => false⟩

/-- Name encoding that makes the witness source's keys pairwise distinct. -/
def natName (i : Nat) : String := String.mk (List.replicate i 'a')

/-- One fresh simulated record per iteration for the C4 witness. -/
def mkB (i : Nat) : Business :=
  { name := some (natName i), address := "Jl. X", phone_number := "0765" }

/-- Inexhaustible simulated source for the C4 witness: one new record per
batch, strictly growing count, no end marker. -/
def env0 : SessionEnv := ⟨fun i => [mkB i], fun i => i + 1, fun _ => false⟩

/-! Basic store lemmas shared by the claims about `BusinessList`. -/

theorem add_business_key_mem (s : BusinessList) (b : Business) :
    b.key ∈ (add_business s b).2.seen_businesses := by
  unfold add_business
  by_cases h : b.key ∈ s.seen_businesses <;> simp [h]

theorem add_business_seen_mono (s : BusinessList) (b : Business) :
    ∀ x ∈ s.seen_businesses, x ∈ (add_business s b).2.seen_businesses := by
  intro x hx
  unfold add_business
  by_cases h : b.key ∈ s.seen_businesses <;> simp [h, hx]

theorem runOps_seen_mono (ops : List StoreOp) (s : BusinessList) :
    ∀ x ∈ s.seen_businesses, x ∈ (runOps s ops).seen_businesses := by
  induction ops generalizing s with
  | nil => intro x hx; exact hx
  | cons op ops ih =>
    intro x hx
    cases op with
    | add b => exact ih _ x (add_business_seen_mono s b x hx)
    | clear => exact ih _ x hx

theorem runOps_append (s : BusinessList) (l1 l2 : List StoreOp) :
    runOps s (l1 ++ l2) = runOps (runOps s l1) l2 := by
  induction l1 generalizing s with
  | nil => rfl
  | cons op ops ih =>
    cases op with
    | add b => simp [runOps, ih]
    | clear => simp [runOps, ih]

/-- Keys of stored records are always in the key set, in every state
reachable from a given state satisfying the same inclusion. -/
theorem runOps_keys_sub (ops : List StoreOp) (s : BusinessList)
    (h : ∀ b ∈ s.business_list, b.key ∈ s.seen_businesses) :
    ∀ b ∈ (runOps s ops).business_list,
      b.key ∈ (runOps s ops).seen_businesses := by
  induction ops generalizing s with
  | nil => exact h
  | cons op ops ih =>
    cases op with
    | add b =>
      refine ih _ ?_
      intro c hc
      unfold add_business at hc ⊢
      by_cases hk : b.key ∈ s.seen_businesses
      · simp only [hk, if_true] at hc ⊢
        exact h c hc
      · simp only [hk, if_false] at hc ⊢
        simp only [List.mem_append, List.mem_singleton] at hc
        cases hc with
        | inl hmem => exact List.mem_cons_of_mem _ (h c hmem)
        | inr heq => subst heq; exact List.mem_cons_self _ _
    | clear =>
      refine ih _ ?_
      intro c hc
      simp [clearBusinesses] at hc

/-! Claims C1, C2, C3 about the dedup store. -/

/-- Claim C1, counterexample.  The claim quantifies over every `BusinessList`
store, but on a store that has already recorded the key of `r` — here the
reachable state obtained by adding `b0` and then running the per-category
clear — the first of the two successive `add_business(r)` calls returns
`false` (not `true`), and the two calls leave zero copies of `r` in the
sequence (not exactly one). -/
theorem C1_cex :
    (add_business (runOps BusinessList.empty [StoreOp.add b0, StoreOp.clear]) b0).1 = false
    ∧ ((add_business
        (add_business (runOps BusinessList.empty [StoreOp.add b0, StoreOp.clear]) b0).2
          b0).2.business_list.count b0) = 0 := by
  constructor <;> rfl

/-- Claim C1, amended: for every reachable store whose key set does not yet
contain the composite key of `r`, calling `add_business(r)` twice in
succession appends exactly one copy of `r` (so exactly one copy is in the
sequence); the first call returns `true` and the second returns `false`. -/
theorem C1_dedup_idempotence (ops : List StoreOp) (b : Business)
    (h : b.key ∉ (runOps BusinessList.empty ops).seen_businesses) :
    (add_business (runOps BusinessList.empty ops) b).1 = true
    ∧ (add_business (add_business (runOps BusinessList.empty ops) b).2 b).1 = false
    ∧ (add_business (add_business (runOps BusinessList.empty ops) b).2 b).2.business_list
        = (runOps BusinessList.empty ops).business_list ++ [b]
    ∧ ((add_business (add_business (runOps BusinessList.empty ops) b).2 b).2.business_list.count b)
        = 1 := by
  set s := runOps BusinessList.empty ops with hs
  have hnotin : b ∉ s.business_list := by
    intro hmem
    exact h (runOps_keys_sub ops BusinessList.empty (by intro c hc; simp [BusinessList.empty] at hc) b hmem)
  have h1 : add_business s b = (true, ⟨s.business_list ++ [b], b.key :: s.seen_businesses⟩) := by
    unfold add_business
    simp [h]
  have h2 : add_business (⟨s.business_list ++ [b], b.key :: s.seen_businesses⟩ : BusinessList) b
      = (false, ⟨s.business_list ++ [b], b.key :: s.seen_businesses⟩) := by
    unfold add_business
    simp
  refine ⟨by simp [h1], by simp [h1, h2], by simp [h1, h2], ?_⟩
  simp [h1, h2, List.count_append, List.count_eq_zero.mpr hnotin, List.count_singleton]

/-- Claim C1 witness: the amended statement holds at the fresh store and the
concrete record `b0`. -/
theorem C1_dedup_idempotence_w :
    (add_business (runOps BusinessList.empty []) b0).1 = true
    ∧ (add_business (add_business (runOps BusinessList.empty []) b0).2 b0).1 = false
    ∧ (add_business (add_business (runOps BusinessList.empty []) b0).2 b0).2.business_list
        = (runOps BusinessList.empty []).business_list ++ [b0]
    ∧ ((add_business (add_business (runOps BusinessList.empty []) b0).2 b0).2.business_list.count b0)
        = 1 :=
  C1_dedup_idempotence [] b0 (by simp [runOps, BusinessList.empty])

/-- Claim C2: clearing empties only the sequence and keeps the key set, so
for every record `b` previously added (anywhere in the history, with any
other operations around it), after the per-category clear a further
`add_business(b)` still returns `false`: cross-category dedup persists. -/
theorem C2_clear_preserves_dedup (ops1 ops2 : List StoreOp) (b : Business) :
    (add_business
      (runOps BusinessList.empty (ops1 ++ [StoreOp.add b] ++ ops2 ++ [StoreOp.clear]))
      b).1 = false := by
  set L := ops1 ++ [StoreOp.add b] ++ ops2 ++ [StoreOp.clear] with hL
  have hkey : b.key ∈ (runOps BusinessList.empty L).seen_businesses := by
    have h1 : runOps BusinessList.empty L
        = runOps (runOps (runOps BusinessList.empty (ops1 ++ [StoreOp.add b])) ops2) [StoreOp.clear] := by
      rw [hL, ← runOps_append, ← runOps_append]
      simp
    have h2 : runOps BusinessList.empty (ops1 ++ [StoreOp.add b])
        = (add_business (runOps BusinessList.empty ops1) b).2 := by
      rw [runOps_append]; rfl
    have h3 : b.key ∈ (runOps BusinessList.empty (ops1 ++ [StoreOp.add b])).seen_businesses := by
      rw [h2]; exact add_business_key_mem _ b
    have h4 := runOps_seen_mono ops2 _ _ h3
    rw [h1]
    simpa [runOps, clearBusinesses] using h4
  unfold add_business
  simp [hkey]

/-- Claim C3, counterexample.  In the reachable state obtained by adding `b0`
and then clearing, the key of `b0` is still in the key set while the
sequence is empty, so the claimed converse direction (every key in the key
set is the key of some sequence element) fails. -/
theorem C3_cex :
    b0.key ∈ (runOps BusinessList.empty [StoreOp.add b0, StoreOp.clear]).seen_businesses
    ∧ (runOps BusinessList.empty [StoreOp.add b0, StoreOp.clear]).business_list = [] := by
  constructor <;> decide

/-- Claim C3, amended: in every reachable state, the key of every sequence
element is in the key set, and a record is appended (the sequence is
extended by exactly that record) if and only if its key is newly inserted
(was not in the key set); the converse inclusion of key set into sequence
keys holds in every state reachable without a clear operation, but is lost
once a clear occurs. -/
theorem C3_store_invariant (ops : List StoreOp) :
    (∀ b ∈ (runOps BusinessList.empty ops).business_list,
        b.key ∈ (runOps BusinessList.empty ops).seen_businesses)
    ∧ (∀ (s : BusinessList) (b : Business),
        ((add_business s b).2.business_list = s.business_list ++ [b]
            ∧ (add_business s b).2.seen_businesses = b.key :: s.seen_businesses
            ∧ (add_business s b).1 = true)
        ∨ ((add_business s b).2 = s ∧ (add_business s b).1 = false
            ∧ b.key ∈ s.seen_businesses))
    ∧ (StoreOp.clear ∉ ops →
        ∀ k ∈ (runOps BusinessList.empty ops).seen_businesses,
          ∃ b ∈ (runOps BusinessList.empty ops).business_list, b.key = k) := by
  refine ⟨runOps_keys_sub ops BusinessList.empty (by intro c hc; simp [BusinessList.empty] at hc), ?_, ?_⟩
  · intro s b
    unfold add_business
    by_cases h : b.key ∈ s.seen_businesses
    · right; simp [h]
    · left; simp [h]
  · intro hnoclear
    have main : ∀ (s : BusinessList),
        (∀ k ∈ s.seen_businesses, ∃ b ∈ s.business_list, b.key = k) →
        StoreOp.clear ∉ ops →
        ∀ k ∈ (runOps s ops).seen_businesses, ∃ b ∈ (runOps s ops).business_list, b.key = k := by
      clear hnoclear
      induction ops with
      | nil => intro s hs _ k hk; exact hs k hk
      | cons op ops ih =>
        intro s hs hnc k hk
        cases op with
        | add b =>
          refine ih _ ?_ (by simpa using hnc) k hk
          intro x hx
          unfold add_business at hx ⊢
          by_cases hmem : b.key ∈ s.seen_businesses
          · simp only [hmem, if_true] at hx ⊢
            exact hs x hx
          · simp only [hmem, if_false] at hx ⊢
            rcases List.mem_cons.mp hx with hx | hx
            · subst hx
              exact ⟨b, by simp⟩
            · obtain ⟨c, hc, hck⟩ := hs x hx
              exact ⟨c, by simp [hc], hck⟩
        | clear =>
          exfalso
          exact hnc (by simp)
    exact main BusinessList.empty (by intro k hk; simp [BusinessList.empty] at hk) hnoclear

/-- Claim C3 witness: the amended invariant evaluated after adding `b0` to
the fresh store: the key of the stored record is in the key set, a fresh
add appends the record and reports a new insertion, and with no clear in
the history the key set is covered by the sequence. -/
theorem C3_store_invariant_w :
    b0.key ∈ (runOps BusinessList.empty [StoreOp.add b0]).seen_businesses
    ∧ ∃ b ∈ (runOps BusinessList.empty [StoreOp.add b0]).business_list, b.key = b0.key :=
  ⟨(C3_store_invariant [StoreOp.add b0]).1 b0 (by simp [runOps, add_business, BusinessList.empty]),
   (C3_store_invariant [StoreOp.add b0]).2.2 (by simp) b0.key
     (by simp [runOps, add_business, BusinessList.empty])⟩

theorem containsKec_append (t l : List Char) (h : containsKec l = true) :
    containsKec (t ++ l) = true := by
  induction t with
  | nil => simpa using h
  | cons c t ih =>
    by_cases hc : c = 'K' ∧ (t ++ l).take 3 = ['e', 'c', '.'] <;>
      simp [containsKec, hc, ih]

theorem containsKec_suffix (l1 l2 : List Char) (h : l2 <:+ l1)
    (hc : containsKec l2 = true) : containsKec l1 = true := by
  obtain ⟨t, rfl⟩ := h
  exact containsKec_append t l2 hc

theorem containsKec_of_take (l : List Char) (h : l.take 4 = kecLit) :
    containsKec l = true := by
  cases l with
  | nil => simp [kecLit] at h
  | cons a l1 =>
    cases l1 with
    | nil => simp [kecLit] at h
    | cons b l2 =>
      cases l2 with
      | nil => simp [kecLit] at h
      | cons c l3 =>
        cases l3 with
        | nil => simp [kecLit] at h
        | cons d rest =>
          simp only [List.take, kecLit, List.cons.injEq] at h
          obtain ⟨ha, hb, hc, hd, -⟩ := h
          subst ha; subst hb; subst hc; subst hd
          simp [containsKec, List.take]

/-- Any successful fixed-position attempt implies the input has a `Kec.`
occurrence. -/
theorem matchAt_contains (cs : List Char) (g : List Char × List Char)
    (h : matchAt cs = some g) : containsKec cs = true := by
  unfold matchAt at h
  by_cases h1 : cs.takeWhile isClassChar = []
  · rw [if_pos h1] at h; cases h
  · rw [if_neg h1] at h
    by_cases h2 : (cs.dropWhile isClassChar).take 1 = [',']
    · rw [if_pos h2] at h
      by_cases h3 : (((cs.dropWhile isClassChar).drop 1).dropWhile isPyWS).take 4 = kecLit
      · have hck : containsKec (((cs.dropWhile isClassChar).drop 1).dropWhile isPyWS) = true :=
          containsKec_of_take _ h3
        have hs1 : (((cs.dropWhile isClassChar).drop 1).dropWhile isPyWS) <:+ cs := by
          refine List.IsSuffix.trans (List.dropWhile_suffix isPyWS) ?_
          refine List.IsSuffix.trans (List.drop_suffix 1 _) ?_
          exact List.dropWhile_suffix isClassChar
        exact containsKec_suffix _ _ hs1 hck
      · rw [if_neg h3] at h; cases h
    · rw [if_neg h2] at h; cases h

/-- Leftmost search succeeds only on inputs that contain `Kec.`. -/
theorem searchKec_contains (cs : List Char) (g : List Char × List Char)
    (h : searchKec cs = some g) : containsKec cs = true := by
  induction cs with
  | nil => simp [searchKec] at h
  | cons c cs ih =>
    unfold searchKec at h
    cases hm : matchAt (c :: cs) with
    | some g2 => exact matchAt_contains _ _ hm
    | none =>
      rw [hm] at h
      have := ih h
      exact containsKec_append [c] cs this

/-! Claim C6. -/

/-- Claim C6, counterexample.  On the spec's own test vector the code does
not return kelurahan `"Bukit Timah"`: the first captured group of
`([A-Za-z\s]+),\s*(Kec\.\s*[A-Za-z\s]+)` starts at the space after the
preceding comma, and `extract_kelurahan_kecamatan` returns `group(1)`
without stripping it, so the kelurahan is `" Bukit Timah"` with a leading
space (checked against CPython `re`). -/
theorem C6_cex :
    ¬ extract_kelurahan_kecamatan "Jl. Contoh No.1, Bukit Timah, Kec. Dumai Timur"
      = (some "Bukit Timah", some "Dumai Timur") := by
  decide

/-- Claim C6, amended: on `"Jl. Contoh No.1, Bukit Timah, Kec. Dumai Timur"`
the parser returns kelurahan `" Bukit Timah"` (the raw first captured
group, leading space retained) and kecamatan `"Dumai Timur"` (the `Kec.`
literal and surrounding whitespace stripped from the second group); and on
any input containing no `Kec.` occurrence it returns `(None, None)`
without raising. -/
theorem C6_address_parsing :
    extract_kelurahan_kecamatan "Jl. Contoh No.1, Bukit Timah, Kec. Dumai Timur"
      = (some " Bukit Timah", some "Dumai Timur")
    ∧ ∀ a : String, containsKec a.toList = false →
        extract_kelurahan_kecamatan a = (none, none) := by
  constructor
  · decide
  · intro a h
    unfold extract_kelurahan_kecamatan
    cases hs : searchKec a.toList with
    | none => rfl
    | some g =>
      rw [searchKec_contains _ _ hs] at h
      cases h

/-- Claim C6 witness: a concrete address with no `Kec.` segment yields
`(None, None)`. -/
theorem C6_address_parsing_w :
    extract_kelurahan_kecamatan "Jl. Mawar No.2, Pekanbaru" = (none, none) :=
  C6_address_parsing.2 "Jl. Mawar No.2, Pekanbaru" (by decide)

/-- With no `/@` occurrence, Python's split returns the whole string as
its only (hence also last) piece. -/
theorem splitAtMark_no_marker (cs : List Char) (h : hasAtMark cs = false) :
    splitAtMark cs = [cs] := by
  induction cs with
  | nil => rfl
  | cons c cs ih =>
    cases cs with
    | nil => rfl
    | cons d cs2 =>
      unfold hasAtMark at h
      unfold splitAtMark
      by_cases hc : c = '/' ∧ d = '@'
      · rw [if_pos hc] at h; cases h
      · rw [if_neg hc] at h
        rw [if_neg hc, ih h]

/-! Claims C7 and C10. -/

/-- Claim C7, counterexample.  The string `"1.5,2.5"` has no `/@` marker,
yet `extract_coordinates_from_url` does not return `(None, None)` on it:
`split('/@')` of a marker-free string returns the whole string, whose
first two comma tokens parse as floats, so the call returns `(1.5, 2.5)`
(checked against CPython). -/
theorem C7_cex :
    hasAtMark "1.5,2.5".toList = false
    ∧ extract_coordinates_from_url "1.5,2.5" = (some (mkRat 3 2), some (mkRat 5 2)) := by
  constructor <;> decide

/-- Claim C7, amended: a URL containing `/@1.67,101.45,15z/` yields
latitude 1.67 and longitude 101.45; a URL missing the `/@` marker is not
unconditionally `(None, None)`: the same first-segment tokenization is
applied to the whole URL, returning parsed floats when its first two
comma tokens parse (as in the counterexample) and `(None, None)`
otherwise, never raising. -/
theorem C7_coordinate_parsing :
    extract_coordinates_from_url
        "https://www.google.com/maps/place/Sekolah/@1.67,101.45,15z/data=!3m1"
      = (some (mkRat 167 100), some (mkRat 10145 100))
    ∧ ∀ url : String, hasAtMark url.toList = false →
        extract_coordinates_from_url url = coordsOfPart url.toList := by
  constructor
  · decide
  · intro url h
    unfold extract_coordinates_from_url
    rw [splitAtMark_no_marker _ h]
    simp [List.getLastD]

/-- Claim C7 witness: a concrete URL without the marker is tokenized
whole. -/
theorem C7_coordinate_parsing_w :
    extract_coordinates_from_url "https:" = coordsOfPart "https:".toList :=
  C7_coordinate_parsing.2 "https:" (by decide)

/-- Claim C10: `extract_coordinates_from_url` is total (every caught
exception path lands in the `(None, None)` return) and all-or-nothing:
for every URL it returns either two parsed floats or `(None, None)`,
never exactly one coordinate. -/
theorem C10_coords_total (url : String) :
    (∃ a b : ℚ, extract_coordinates_from_url url = (some a, some b))
    ∨ extract_coordinates_from_url url = (none, none) := by
  unfold extract_coordinates_from_url coordsOfPart
  split
  · split
    · exact Or.inl ⟨_, _, rfl⟩
    · exact Or.inr rfl
  · exact Or.inr rfl

theorem parsePart_ok (p : List Char) (h : wellFormedPart p = true) :
    ∃ v, parsePart p = Except.ok v := by
  unfold wellFormedPart at h
  unfold parsePart
  by_cases hc : (pyStrip p).contains '-'
  · rw [if_pos hc] at h ⊢
    rcases hs : (pyStrip p).splitOn '-' with _ | ⟨a, _ | ⟨b, _ | ⟨c, t⟩⟩⟩ <;> rw [hs] at h
    · have h2 : false = true := h
      exact Bool.noConfusion h2
    · have h2 : false = true := h
      exact Bool.noConfusion h2
    · have h2 : ((pyInt a).isSome && (pyInt b).isSome) = true := h
      show ∃ v, (match pyInt a, pyInt b with
        | some x, some y => Except.ok (rangeList (x - 1) (y - 1))
        | _, _ => Except.error ()) = Except.ok v
      cases hx : pyInt a with
      | none => rw [hx] at h2; simp at h2
      | some x =>
        cases hy : pyInt b with
        | none => rw [hy] at h2; simp at h2
        | some y => exact ⟨_, rfl⟩
    · have h2 : false = true := h
      exact Bool.noConfusion h2
  · rw [if_neg hc] at h ⊢
    cases hx : pyInt (pyStrip p) with
    | none => rw [hx] at h; simp at h
    | some n => exact ⟨_, rfl⟩

theorem mapM_parsePart_ok (l : List (List Char))
    (h : ∀ p ∈ l, wellFormedPart p = true) :
    ∃ r, l.mapM parsePart = Except.ok r := by
  induction l with
  | nil => exact ⟨[], rfl⟩
  | cons p l ih =>
    obtain ⟨v, hv⟩ := parsePart_ok p (h p (by simp))
    obtain ⟨r, hr⟩ := ih (fun q hq => h q (by simp [hq]))
    refine ⟨v :: r, ?_⟩
    rw [List.mapM_cons, hv, hr]
    rfl

/-! Claim C9. -/

/-- Claim C9, counterexample.  The claim says parsing never raises on any
input, but a non-numeric part raises an uncaught ValueError
(`int("a")`): the run crashes instead of silently dropping the part. -/
theorem C9_cex : parse_business_input "a" = Except.error () := rfl

/-- Claim C9, amended: parsing raises no error on inputs all of whose
comma-separated parts are well-formed integers or integer ranges
(non-numeric or malformed parts raise an uncaught ValueError instead of
being dropped); out-of-range indices are silently dropped, in that the
selection is unchanged by removing them; and if the resulting selection
is empty the run aborts with a user-visible message before any file
output (`.ok none`). -/
theorem C9_selection :
    (∀ s : String, (∀ p ∈ s.toList.splitOn ',', wellFormedPart p = true) →
        isOkE (parse_business_input s) = true)
    ∧ (∀ idxs : List ℤ, selectCategories idxs = selectCategories (idxs.filter inRangeIdx))
    ∧ (∀ (input : String) (idxs : List ℤ), parse_business_input input = Except.ok idxs →
        selectCategories idxs = [] → mainStart input = Except.ok none) := by
  refine ⟨?_, ?_, ?_⟩
  · intro s h
    obtain ⟨r, hr⟩ := mapM_parsePart_ok _ h
    unfold parse_business_input
    rw [hr]
    rfl
  · intro idxs
    unfold selectCategories
    rw [List.filter_filter]
    simp
  · intro input idxs hparse hempty
    unfold mainStart
    rw [hparse]
    show (if selectCategories idxs = [] then Except.ok none
        else Except.ok (some (selectCategories idxs))) = Except.ok none
    rw [if_pos hempty]

/-- Claim C9 witness: a well-formed input with an out-of-range index
parses without error, and the out-of-range-only input `"99"` leads to
the abort before any file output. -/
theorem C9_selection_w :
    isOkE (parse_business_input "1,3-5,99") = true
    ∧ mainStart "99" = Except.ok none :=
  ⟨C9_selection.1 "1,3-5,99" (by decide),
   C9_selection.2.2 "99" [98] rfl rfl⟩

/-- Claim C8, counterexample.  On a nonempty store whose save raises, the
callback propagates the error and the re-arm line is never reached, so
the checkpoint action does not re-arm regardless of outcome as claimed. -/
theorem C8_cex :
    auto_save (add_business BusinessList.empty b0).2 SaveOutcome.failure
      = Except.error () := rfl

/-- Claim C8, amended: the checkpoint action re-arms whenever the store is
empty (saving skipped) or the persistence calls return normally; but a
persistence failure on a nonempty store propagates out of the timer
callback and prevents scheduling of the next 60-unit period, stopping
re-arming. -/
theorem C8_autosave_rearm :
    (∀ (store : BusinessList) (save : SaveOutcome), store.business_list = [] →
        auto_save store save = Except.ok true)
    ∧ (∀ store : BusinessList, store.business_list ≠ [] →
        auto_save store SaveOutcome.ok = Except.ok true)
    ∧ (∀ store : BusinessList, store.business_list ≠ [] →
        auto_save store SaveOutcome.failure = Except.error ()) := by
  refine ⟨?_, ?_, ?_⟩
  · intro store save h
    unfold auto_save
    simp [h]
  · intro store h
    unfold auto_save
    simp [List.isEmpty_iff, h]
  · intro store h
    unfold auto_save
    simp [List.isEmpty_iff, h]

/-- Claim C8 witness: the amended statement at a concrete nonempty store,
for a successful save (re-armed) and for the store with no data. -/
theorem C8_autosave_rearm_w :
    auto_save (add_business BusinessList.empty b0).2 SaveOutcome.ok = Except.ok true
    ∧ auto_save BusinessList.empty SaveOutcome.failure = Except.ok true :=
  ⟨C8_autosave_rearm.2.1 _ (by decide), C8_autosave_rearm.1 _ _ rfl⟩

/-! Lemmas about batch processing and loop steps. -/

theorem processBatch_cons (target : Nat) (p : BusinessList × Nat) (b : Business)
    (bs : List Business) :
    processBatch target p (b :: bs) = processBatch target (processListing target p b) bs := rfl

theorem processListing_scraped_mono (target : Nat) (p : BusinessList × Nat) (b : Business) :
    p.2 ≤ (processListing target p b).2 := by
  unfold processListing
  by_cases ht : target ≤ p.2
  · simp [ht]
  · by_cases ha : (add_business p.1 b).1 <;> simp [ht, ha] <;> omega

theorem processListing_scraped_cap (target : Nat) (p : BusinessList × Nat) (b : Business)
    (h : p.2 ≤ target) : (processListing target p b).2 ≤ target := by
  unfold processListing
  by_cases ht : target ≤ p.2
  · simpa [ht] using h
  · by_cases ha : (add_business p.1 b).1 <;> simp [ht, ha] <;> omega

theorem processBatch_scraped_mono (target : Nat) (bs : List Business) (p : BusinessList × Nat) :
    p.2 ≤ (processBatch target p bs).2 := by
  induction bs generalizing p with
  | nil => exact le_refl _
  | cons b bs ih =>
    rw [processBatch_cons]
    exact le_trans (processListing_scraped_mono target p b) (ih _)

theorem processBatch_scraped_cap (target : Nat) (bs : List Business) (p : BusinessList × Nat)
    (h : p.2 ≤ target) : (processBatch target p bs).2 ≤ target := by
  induction bs generalizing p with
  | nil => exact h
  | cons b bs ih =>
    rw [processBatch_cons]
    exact ih _ (processListing_scraped_cap target p b h)

theorem processListing_length (target : Nat) (p : BusinessList × Nat) (b : Business)
    (h : p.1.business_list.length = p.2) :
    (processListing target p b).1.business_list.length = (processListing target p b).2 := by
  unfold processListing add_business
  by_cases ht : target ≤ p.2
  · simp [ht, h]
  · by_cases hk : b.key ∈ p.1.seen_businesses <;> simp [ht, hk, h]

theorem processBatch_length (target : Nat) (bs : List Business) (p : BusinessList × Nat)
    (h : p.1.business_list.length = p.2) :
    (processBatch target p bs).1.business_list.length = (processBatch target p bs).2 := by
  induction bs generalizing p with
  | nil => exact h
  | cons b bs ih =>
    rw [processBatch_cons]
    exact ih _ (processListing_length target p b h)

theorem processListing_seen_sub (target : Nat) (p : BusinessList × Nat) (b : Business) :
    ∀ x ∈ (processListing target p b).1.seen_businesses,
      x ∈ p.1.seen_businesses ∨ b.key = x := by
  intro x hx
  unfold processListing add_business at hx
  by_cases ht : target ≤ p.2
  · rw [if_pos ht] at hx
    exact Or.inl hx
  · simp only [if_neg ht] at hx
    by_cases hk : b.key ∈ p.1.seen_businesses
    · simp only [if_pos hk] at hx
      exact Or.inl hx
    · simp only [if_neg hk] at hx
      have hx2 : x ∈ b.key :: p.1.seen_businesses := hx
      rcases List.mem_cons.mp hx2 with h1 | h1
      · exact Or.inr h1.symm
      · exact Or.inl h1

theorem processBatch_seen_sub (target : Nat) (bs : List Business) (p : BusinessList × Nat) :
    ∀ x ∈ (processBatch target p bs).1.seen_businesses,
      x ∈ p.1.seen_businesses ∨ ∃ b ∈ bs, b.key = x := by
  induction bs generalizing p with
  | nil => intro x hx; exact Or.inl hx
  | cons b bs ih =>
    intro x hx
    rw [processBatch_cons] at hx
    rcases ih _ x hx with hmem | ⟨c, hc, hck⟩
    · rcases processListing_seen_sub target p b x hmem with h1 | h1
      · exact Or.inl h1
      · exact Or.inr ⟨b, by simp, h1⟩
    · exact Or.inr ⟨c, by simp [hc], hck⟩

theorem processBatch_progress (target : Nat) (b : Business) (bs : List Business)
    (p : BusinessList × Nat) (hlt : p.2 < target)
    (hfresh : b.key ∉ p.1.seen_businesses) :
    p.2 + 1 ≤ (processBatch target p (b :: bs)).2 := by
  rw [processBatch_cons]
  refine le_trans ?_ (processBatch_scraped_mono target bs _)
  unfold processListing add_business
  simp only [if_neg (show ¬ target ≤ p.2 by omega), if_neg hfresh]
  simp

theorem sessionLoop_succ (env : SessionEnv) (target fuel i : Nat) (st : SessionState) :
    sessionLoop env target (fuel + 1) i st
      = match sessionStep env target i st with
        | StepResult.exit r st2 => (st2, r, i)
        | StepResult.next st2 => sessionLoop env target fuel (i + 1) st2 := rfl

theorem sessionStep_exit_reason (env : SessionEnv) (target i : Nat) (st st2 : SessionState)
    (r : ExitReason) (h : sessionStep env target i st = StepResult.exit r st2) :
    r ≠ ExitReason.fuelOut := by
  unfold sessionStep scrollUpdate at h
  repeat' split at h
  all_goals cases h
  all_goals decide

theorem sessionStep_next_prev (env : SessionEnv) (target i : Nat) (st st2 : SessionState)
    (h : sessionStep env target i st = StepResult.next st2) :
    st2.prev = env.newCount i := by
  unfold sessionStep scrollUpdate at h
  repeat' split at h
  all_goals cases h
  all_goals rfl

theorem sessionStep_next_equal (env : SessionEnv) (target i : Nat) (st st2 : SessionState)
    (heq : env.newCount i = st.prev)
    (h : sessionStep env target i st = StepResult.next st2) :
    st2.attempts = st.attempts + 1 ∧ st.attempts + 1 < MAX_SCROLL_ATTEMPTS := by
  unfold sessionStep scrollUpdate at h
  repeat' split at h
  all_goals cases h
  all_goals first
    | exact ⟨rfl, by unfold MAX_SCROLL_ATTEMPTS at *; omega⟩
    | omega

theorem sessionStep_next_reset (env : SessionEnv) (target i : Nat) (st st2 : SessionState)
    (hne : env.newCount i ≠ st.prev)
    (h : sessionStep env target i st = StepResult.next st2) :
    st2.attempts = 0 := by
  unfold sessionStep scrollUpdate at h
  repeat' split at h
  all_goals cases h
  all_goals first | rfl | omega

/-- With the observed count constant from iteration `i0` on and the loop
already past `i0` with `previously_counted` equal to that constant, the
stagnation counter climbs every continuing iteration, so fuel
`MAX_SCROLL_ATTEMPTS - attempts` suffices to stop. -/
theorem sessionLoop_stops_constant (env : SessionEnv) (target : Nat) (i0 c : Nat)
    (hc : ∀ j, i0 ≤ j → env.newCount j = c) :
    ∀ fuel i st, i0 ≤ i → st.prev = c →
      MAX_SCROLL_ATTEMPTS - st.attempts < fuel →
      (sessionLoop env target fuel i st).2.1 ≠ ExitReason.fuelOut := by
  intro fuel
  induction fuel with
  | zero => intro i st _ _ hcount; omega
  | succ fuel ih =>
    intro i st hi hprev hcount
    rw [sessionLoop_succ]
    cases hstep : sessionStep env target i st with
    | exit r st2 => exact sessionStep_exit_reason env target i st st2 r hstep
    | next st2 =>
      have heq : env.newCount i = st.prev := by rw [hprev]; exact hc i hi
      obtain ⟨hatt, hlt⟩ := sessionStep_next_equal env target i st st2 heq hstep
      have hprev2 : st2.prev = c := by
        rw [sessionStep_next_prev env target i st st2 hstep, hc i hi]
      exact ih (i + 1) st2 (by omega) hprev2 (by omega)

/-- Same, from any state at an iteration at or past `i0`. -/
theorem sessionLoop_stops_from (env : SessionEnv) (target : Nat) (i0 c : Nat)
    (hc : ∀ j, i0 ≤ j → env.newCount j = c) :
    ∀ fuel i st, i0 ≤ i → MAX_SCROLL_ATTEMPTS + 1 < fuel →
      (sessionLoop env target fuel i st).2.1 ≠ ExitReason.fuelOut := by
  intro fuel i st hi hf
  cases fuel with
  | zero => omega
  | succ fuel =>
    rw [sessionLoop_succ]
    cases hstep : sessionStep env target i st with
    | exit r st2 => exact sessionStep_exit_reason env target i st st2 r hstep
    | next st2 =>
      have hprev2 : st2.prev = c := by
        rw [sessionStep_next_prev env target i st st2 hstep, hc i hi]
      exact sessionLoop_stops_constant env target i0 c hc fuel (i + 1) st2 (by omega)
        hprev2 (by omega)

/-- Same, from any iteration at all: the loop reaches `i0` consuming one
fuel per iteration and then stops within the stagnation budget. -/
theorem sessionLoop_stops_all (env : SessionEnv) (target : Nat) (i0 c : Nat)
    (hc : ∀ j, i0 ≤ j → env.newCount j = c) :
    ∀ fuel i st, i0 - i + MAX_SCROLL_ATTEMPTS + 1 < fuel →
      (sessionLoop env target fuel i st).2.1 ≠ ExitReason.fuelOut := by
  intro fuel
  induction fuel with
  | zero => intro i st h; omega
  | succ fuel ih =>
    intro i st h
    by_cases hi : i0 ≤ i
    · exact sessionLoop_stops_from env target i0 c hc (fuel + 1) i st hi (by omega)
    · rw [sessionLoop_succ]
      cases hstep : sessionStep env target i st with
      | exit r st2 => exact sessionStep_exit_reason env target i st st2 r hstep
      | next st2 => exact ih (i + 1) st2 (by omega)

/-! Claim C5. -/

/-- Claim C5: for every pagination source whose observed count stops
changing from some iteration `i0` on, the scroll loop terminates — with
fuel covering `i0` plus the stagnation budget the run never ends in
`fuelOut`; moreover one step that observes a count equal to
`previously_counted` while the stagnation counter reaches
`MAX_SCROLL_ATTEMPTS = 10` exits with the stagnation reason (the
session's `Exhausted`), and any step that observes a changed count and
continues resets the stagnation counter to 0. -/
theorem C5_stagnation_termination (env : SessionEnv) (target : Nat) (st : SessionState)
    (i0 c : Nat) (hc : ∀ j, i0 ≤ j → env.newCount j = c) (fuel : Nat)
    (hf : i0 + MAX_SCROLL_ATTEMPTS + 2 ≤ fuel) :
    (sessionLoop env target fuel 0 st).2.1 ≠ ExitReason.fuelOut
    ∧ (∀ (i : Nat) (st2 st3 : SessionState), env.newCount i ≠ st2.prev →
        sessionStep env target i st2 = StepResult.next st3 → st3.attempts = 0)
    ∧ (∀ (i : Nat) (st2 : SessionState), st2.scraped < target → env.batch i ≠ [] →
        env.newCount i = st2.prev → MAX_SCROLL_ATTEMPTS ≤ st2.attempts + 1 →
        stepExit (sessionStep env target i st2) = some ExitReason.stagnation) := by
  refine ⟨?_, ?_, ?_⟩
  · exact sessionLoop_stops_all env target i0 c hc fuel 0 st (by omega)
  · intro i st2 st3 hne hstep
    exact sessionStep_next_reset env target i st2 st3 hne hstep
  · intro i st2 hscr hbatch heq hmax
    unfold sessionStep scrollUpdate
    rw [if_pos hscr, if_neg hbatch, if_pos heq, if_pos hmax]
    rfl

/-- Claim C5 witness: on the stagnant source the loop run with fuel 12
does not exhaust its fuel (it exits by the stagnation rule). -/
theorem C5_stagnation_termination_w :
    (sessionLoop env1 5 12 0 (initSession 0)).2.1 ≠ ExitReason.fuelOut :=
  (C5_stagnation_termination env1 5 (initSession 0) 0 0 (fun j h => rfl) 12
    (by decide)).1

/-- Main induction for claim C4.  Against a source with nonempty,
key-disjoint batches, strictly changing counts and no end marker, the
loop accepts at least one new record per iteration, never exceeds the
target, and exits through the `while` condition with exactly `target`
accepted records after at most `target` further batch requests. -/
theorem sessionLoop_reaches_target (env : SessionEnv) (N c0 : Nat)
    (hb : ∀ i, env.batch i ≠ [])
    (hcross : FreshBatches env)
    (hgrow : ∀ k, env.newCount k ≠ prevCount env c0 k)
    (hend : ∀ k, env.endMarker k = false) :
    ∀ fuel k st, st.prev = prevCount env c0 k → SeenFromBatches env k st.store →
      st.store.business_list.length = st.scraped → st.scraped ≤ N →
      N - st.scraped < fuel →
      (sessionLoop env N fuel k st).1.scraped = N
      ∧ (sessionLoop env N fuel k st).1.store.business_list.length = N
      ∧ (sessionLoop env N fuel k st).2.1 = ExitReason.target
      ∧ (sessionLoop env N fuel k st).2.2 ≤ k + (N - st.scraped) := by
  intro fuel
  induction fuel with
  | zero => intro k st _ _ _ _ h; omega
  | succ fuel ih =>
    intro k st hprev hseen hlen hle hfuel
    by_cases hdone : st.scraped < N
    · have hneq : env.newCount k ≠ st.prev := by rw [hprev]; exact hgrow k
      have hstep : sessionStep env N k st
          = StepResult.next ⟨(processBatch N (st.store, st.scraped) (env.batch k)).1,
              (processBatch N (st.store, st.scraped) (env.batch k)).2, 0, env.newCount k⟩ := by
        unfold sessionStep scrollUpdate
        rw [if_pos hdone, if_neg (hb k), if_neg hneq,
          if_neg (show ¬ env.endMarker k = true by simp [hend k])]
      obtain ⟨bh, bt, hbk⟩ : ∃ bh bt, env.batch k = bh :: bt := by
        cases hx : env.batch k with
        | nil => exact absurd hx (hb k)
        | cons bh bt => exact ⟨bh, bt, rfl⟩
      have hfresh : bh.key ∉ st.store.seen_businesses := by
        intro hmem
        obtain ⟨j, hj, bp, hbp, hkeq⟩ := hseen _ hmem
        exact hcross j k hj bp hbp bh (by rw [hbk]; simp) hkeq
      have hprog : st.scraped + 1 ≤ (processBatch N (st.store, st.scraped) (env.batch k)).2 := by
        rw [hbk]
        exact processBatch_progress N bh bt (st.store, st.scraped) hdone hfresh
      have hcap : (processBatch N (st.store, st.scraped) (env.batch k)).2 ≤ N :=
        processBatch_scraped_cap N (env.batch k) (st.store, st.scraped) hle
      have hlen2 : (processBatch N (st.store, st.scraped) (env.batch k)).1.business_list.length
          = (processBatch N (st.store, st.scraped) (env.batch k)).2 :=
        processBatch_length N (env.batch k) (st.store, st.scraped) hlen
      have hseen2 : SeenFromBatches env (k + 1)
          (processBatch N (st.store, st.scraped) (env.batch k)).1 := by
        intro x hx
        rcases processBatch_seen_sub N (env.batch k) (st.store, st.scraped) x hx with
          hmem | ⟨b, hbmem, hbkey⟩
        · obtain ⟨j, hj, w⟩ := hseen x hmem
          exact ⟨j, by omega, w⟩
        · exact ⟨k, by omega, b, hbmem, hbkey⟩
      have hrec := ih (k + 1)
        ⟨(processBatch N (st.store, st.scraped) (env.batch k)).1,
         (processBatch N (st.store, st.scraped) (env.batch k)).2, 0, env.newCount k⟩
        rfl hseen2 hlen2 hcap (by simp only; omega)
      rw [sessionLoop_succ, hstep]
      refine ⟨hrec.1, hrec.2.1, hrec.2.2.1, le_trans hrec.2.2.2 ?_⟩
      simp only
      omega
    · have heq : st.scraped = N := by omega
      have hstep : sessionStep env N k st = StepResult.exit ExitReason.target st := by
        unfold sessionStep
        rw [if_neg hdone]
      rw [sessionLoop_succ, hstep]
      exact ⟨heq, by rw [hlen, heq], rfl, Nat.le_add_right k (N - st.scraped)⟩

/-! Claim C4. -/

/-- Claim C4: against an inexhaustible simulated source — every iteration
offers a nonempty batch, batches of different iterations never share a
composite key, the observed count always changes (so stagnation never
fires) and no end-of-list marker appears — the per-category harvest loop
run with target `N` from the category's start accepts exactly `N` unique
records (their count equals `listings_scraped`, which equals `N`), exits
through the `while` condition, and requests at most `N` batches; and the
`listings_scraped` counter is incremented by a listing exactly when its
`add_business` returns true, so duplicates never count. -/
theorem C4_target_count (N : Nat) (env : SessionEnv) (c0 : Nat)
    (hb : ∀ i, env.batch i ≠ [])
    (hcross : FreshBatches env)
    (hgrow : ∀ k, env.newCount k ≠ prevCount env c0 k)
    (hend : ∀ k, env.endMarker k = false) :
    ((sessionLoop env N (N + 1) 0 (initSession c0)).1.scraped = N
      ∧ (sessionLoop env N (N + 1) 0 (initSession c0)).1.store.business_list.length = N
      ∧ (sessionLoop env N (N + 1) 0 (initSession c0)).2.1 = ExitReason.target
      ∧ (sessionLoop env N (N + 1) 0 (initSession c0)).2.2 ≤ N)
    ∧ ∀ (store : BusinessList) (n : Nat) (b : Business), n < N →
        ((processListing N (store, n) b).2 = n + 1 ↔ (add_business store b).1 = true) := by
  constructor
  · have hmain := sessionLoop_reaches_target env N c0 hb hcross hgrow hend (N + 1) 0
      (initSession c0) rfl
      (by intro x hx; simp [initSession, BusinessList.empty] at hx)
      rfl (Nat.zero_le N) (Nat.lt_succ_of_le (Nat.sub_le N 0))
    exact ⟨hmain.1, hmain.2.1, hmain.2.2.1, by simpa [initSession] using hmain.2.2.2⟩
  · intro store n b hn
    unfold processListing
    rw [if_neg (by omega)]
    by_cases ha : (add_business store b).1 <;> simp [ha] <;> omega

theorem natName_inj (i j : Nat) (h : natName i = natName j) : i = j := by
  unfold natName at h
  have h2 := congrArg String.data h
  simpa using congrArg List.length h2

/-- Claim C4 witness: on the concrete inexhaustible source with target 2
and fuel 3, the loop accepts exactly 2 records, stores 2 records, exits
through the `while` condition and requests at most 2 batches. -/
theorem C4_target_count_w :
    (sessionLoop env0 2 3 0 (initSession 0)).1.scraped = 2
    ∧ (sessionLoop env0 2 3 0 (initSession 0)).1.store.business_list.length = 2
    ∧ (sessionLoop env0 2 3 0 (initSession 0)).2.1 = ExitReason.target
    ∧ (sessionLoop env0 2 3 0 (initSession 0)).2.2 ≤ 2 :=
  (C4_target_count 2 env0 0
    (fun i => by simp [env0])
    (fun i j hij a ha b hb2 => by
      simp only [env0, List.mem_singleton] at ha hb2
      subst ha; subst hb2
      intro hkey
      simp only [mkB, Business.key, Prod.mk.injEq, Option.some.injEq] at hkey
      exact absurd (natName_inj _ _ hkey.1) (by omega))
    (fun k => by cases k <;> simp [env0, prevCount])
    (fun k => rfl)).1
